import Mathlib

/-!
Verification of the matrix library (`matrix_lib`): a shallow embedding of
the dense `Matrix`, coordinate `SparseMatrix` and `BlockMatrix` classes at
element type ℚ, together with theorems settling the specification claims.

Conventions of the embedding:
* the C++ exceptions become `Except MatErr`;
* `size_t` indices become `Nat`;
* the numeric template parameter `T` is instantiated at ℚ, which models the
  exact arithmetic of the integer examples and the intended real arithmetic
  of the floating-point ones;
* an out-of-bounds read of the raw owned buffer (undefined behavior in the
  source) is modelled as the distinguished error `MatErr.ubRead`.
-/

namespace MatrixLib

/-- Error kinds raised by the library, mirroring the thrown C++ exceptions,
plus `ubRead` marking an out-of-bounds raw buffer read (undefined behavior
in the source, which never checks `data_[i][j]` accesses). -/
inductive MatErr where
  | outOfRange
  | dimMismatch
  | notSquare
  | singular
  | invalidSize
  | ubRead
deriving DecidableEq

/-- Shallow embedding of `matrix_lib::Matrix<T>` at `T = ℚ`:
fields `rows_`, `cols_` and the row-major payload `data_`. -/
structure Matrix where
  rows : Nat
  cols : Nat
  data : List (List ℚ)
deriving DecidableEq

/-- In-bounds element read `data_[i][j]`.  The source only performs such
reads at coordinates inside the allocation (except where `rawGet` is used
instead), so the default values never matter on reachable inputs. -/
def Matrix.get (m : Matrix) (i j : Nat) : ℚ :=
  (m.data.getD i []).getD j 0

/-- Raw buffer read `data_[i][j]` with the undefined behavior made explicit:
`MatErr.ubRead` when the coordinate is outside the allocated buffer. -/
def Matrix.rawGet (m : Matrix) (i j : Nat) : Except MatErr ℚ :=
  match m.data.get? i with
  | none => .error .ubRead
  | some r =>
    match r.get? j with
    | none => .error .ubRead
    | some v => .ok v

/-- Assignment through `operator()(row, col)`: the bounds check throws
`std::out_of_range`, otherwise the cell is overwritten. -/
def Matrix.setChecked (m : Matrix) (i j : Nat) (v : ℚ) : Except MatErr Matrix :=
  if i < m.rows ∧ j < m.cols then
    .ok ⟨m.rows, m.cols, m.data.set i ((m.data.getD i []).set j v)⟩
  else .error .outOfRange

/-- `Matrix(rows, cols)`: `initMatrix` zero-fills a fresh `rows × cols`
allocation. -/
def Matrix.make (rows cols : Nat) : Matrix :=
  ⟨rows, cols, List.replicate rows (List.replicate cols 0)⟩

/-- The constructor from a raw 2D array: dimensions are taken from the
caller-supplied sizes, which must match the array (a precondition in the
source); here they are read off the nested list itself. -/
def Matrix.ofRows (l : List (List ℚ)) : Matrix :=
  ⟨l.length, (l.headD []).length, l⟩

/-- Well-formedness: the payload really is a `rows × cols` grid, as
`initMatrix` always establishes. -/
def Matrix.Wf (m : Matrix) : Prop :=
  m.data.length = m.rows ∧ ∀ r ∈ m.data, r.length = m.cols

instance (m : Matrix) : Decidable m.Wf := by
  unfold Matrix.Wf; infer_instance

/-- `operator==`: equal dimensions and element-wise equality (exact
compare). -/
def Matrix.beq (a b : Matrix) : Bool :=
  a.rows == b.rows && a.cols == b.cols &&
    ((List.range a.rows).all fun i => (List.range a.cols).all fun j =>
      a.get i j == b.get i j)

/-- `operator+`: dimension check, then element-wise sum into a freshly
allocated result; neither operand is written to. -/
def Matrix.opAdd (a b : Matrix) : Except MatErr Matrix :=
  if a.rows ≠ b.rows ∨ a.cols ≠ b.cols then .error .dimMismatch
  else .ok ⟨a.rows, a.cols,
    (List.range a.rows).map fun i => (List.range a.cols).map fun j =>
      a.get i j + b.get i j⟩

/-- `operator*` (matrix × matrix): inner-dimension check, then the standard
triple loop accumulating into a fresh `a.rows × b.cols` result. -/
def Matrix.opMul (a b : Matrix) : Except MatErr Matrix :=
  if a.cols ≠ b.rows then .error .dimMismatch
  else .ok ⟨a.rows, b.cols,
    (List.range a.rows).map fun i => (List.range b.cols).map fun j =>
      ((List.range a.cols).map fun k => a.get i k * b.get k j).sum⟩

/-- `operator*` (matrix × scalar): element-wise scaling into a fresh
result. -/
def Matrix.opMulScalar (m : Matrix) (c : ℚ) : Matrix :=
  ⟨m.rows, m.cols,
    (List.range m.rows).map fun i => (List.range m.cols).map fun j =>
      m.get i j * c⟩

/-- `makeIdentityMatrix(size)`: rejects sizes below `MIN_SIZE_MATRIX = 2`,
otherwise builds the identity. -/
def Matrix.makeIdentityMatrix (size : Nat) : Except MatErr Matrix :=
  if size < 2 then .error .invalidSize
  else .ok ⟨size, size,
    (List.range size).map fun i => (List.range size).map fun j =>
      if i = j then 1 else 0⟩

/-- The value produced by transposing `m`: a `cols × rows` grid whose cell
`(j, i)` holds `data_[i][j]`.  This is the body of the pure overload
`transposeMatrix(const Matrix&)` (which reads only `this->data_`), and also
the value the in-place `transposeMatrix()` stores back on the inputs where
it completes. -/
def Matrix.transposeOf (m : Matrix) : Matrix :=
  ⟨m.cols, m.rows,
    (List.range m.cols).map fun j => (List.range m.rows).map fun i =>
      m.get i j⟩

/-- The overload `transposeMatrix(const Matrix& other)`: despite taking an
argument, its loop reads `this->data_`, so `other` is ignored. -/
def Matrix.transposeMatrixPure (m other : Matrix) : Matrix :=
  m.transposeOf

/-- In-place `transposeMatrix()`: allocates `result(cols_, rows_)` and runs
`result(i, j) = data_[j][i]` for `i < rows_`, `j < cols_`.  The read of
`data_[j][i]` is raw (undefined behavior out of bounds, sequenced before the
write), the write goes through the bounds-checked `operator()`.  On success
the result is assigned back over `*this`. -/
def Matrix.transposeMatrixInPlace (m : Matrix) : Except MatErr Matrix :=
  (List.range m.rows).foldlM
    (fun acc i =>
      (List.range m.cols).foldlM
        (fun acc2 j => m.rawGet j i >>= fun v => acc2.setChecked i j v)
        acc)
    (Matrix.make m.cols m.rows)

/-- Fuel-indexed core of `determinant()`; the wrapper passes `rows_` as
fuel, and every recursive call is on a minor with one row fewer and fuel one
smaller, so fuel always equals the row count and never runs out on inputs
the source can reach (a square matrix of size 0 has an empty expansion
loop, matching the `0` of the fuel-exhausted branch).

Faithfulness note: in the source loop the inner index `k` skips column `i`
but is only used to advance `minorIndex`; every assigned value is
`data_[j][i]`, so row `j - 1` of the minor is the constant `data_[j][i]`
repeated `cols_ - 1` times.  That is reproduced literally here. -/
def Matrix.detAux : Nat → Matrix → ℚ
  | 0, _ => 0
  | fuel + 1, m =>
    if m.rows = 1 then m.get 0 0
    else if m.rows = 2 then
      m.get 0 0 * m.get 1 1 - m.get 0 1 * m.get 1 0
    else
      ((List.range m.cols).map fun i =>
        (if i % 2 = 0 then (1 : ℚ) else -1) *
          (m.get 0 i *
            Matrix.detAux fuel
              ⟨m.rows - 1, m.cols - 1,
                (List.range (m.rows - 1)).map fun j =>
                  List.replicate (m.cols - 1) (m.get (j + 1) i)⟩)).sum

/-- `determinant()`: squareness check, then the recursive expansion. -/
def Matrix.determinant (m : Matrix) : Except MatErr ℚ :=
  if m.rows ≠ m.cols then .error .notSquare
  else .ok (Matrix.detAux m.rows m)

/-- `cofactorMatrix()`: for every target cell `(i, j)` the source builds the
minor from rows `m + 1` for `m < rows_ - 1` — i.e. it always drops row `0`,
never row `i` — with column `j` skipped, and multiplies that minor's
determinant by `sign(i + j)`. -/
def Matrix.cofactorMatrix (m : Matrix) : Except MatErr Matrix :=
  if m.rows ≠ m.cols then .error .notSquare
  else .ok ⟨m.rows, m.cols,
    (List.range m.rows).map fun i => (List.range m.cols).map fun j =>
      (if (i + j) % 2 = 0 then (1 : ℚ) else -1) *
        Matrix.detAux (m.rows - 1)
          ⟨m.rows - 1, m.cols - 1,
            (List.range (m.rows - 1)).map fun r =>
              ((List.range m.cols).filter fun n => n != j).map fun n =>
                m.get (r + 1) n⟩⟩

/-- `adjugateMatrix()`: the transpose of the cofactor matrix (the source
applies the transpose to the square cofactor temporary). -/
def Matrix.adjugateMatrix (m : Matrix) : Except MatErr Matrix :=
  m.cofactorMatrix >>= fun c => .ok c.transposeOf

/-- `inverseMatrix()`: squareness check, singularity check against the
computed determinant, then `adjugate * (1 / determinant)`. -/
def Matrix.inverseMatrix (m : Matrix) : Except MatErr Matrix :=
  if m.rows ≠ m.cols then .error .notSquare
  else if Matrix.detAux m.rows m = 0 then .error .singular
  else m.adjugateMatrix >>= fun adj =>
    .ok (adj.opMulScalar (1 / Matrix.detAux m.rows m))

/-- The overload `inverseMatrix(const Matrix& other)`: checks squareness and
singularity of `other`, but then uses `this->adjugateMatrix()` — the
adjugate of the receiver, not of `other` — scaled by `1 / other.determinant()`. -/
def Matrix.inverseMatrixOther (m other : Matrix) : Except MatErr Matrix :=
  if other.rows ≠ other.cols then .error .notSquare
  else if Matrix.detAux other.rows other = 0 then .error .singular
  else m.adjugateMatrix >>= fun adj =>
    .ok (adj.opMulScalar (1 / Matrix.detAux other.rows other))

/-- `isNormalMatrix()`: non-square matrices give `false`; otherwise the
source compares `M × Mᵗ` with `Mᵗ × M` and additionally requires
`M × I == I` (the identity comes from `makeIdentityMatrix(rows_)`, which
throws for sizes below 2). -/
def Matrix.isNormalMatrix (m : Matrix) : Except MatErr Bool :=
  if m.rows ≠ m.cols then .ok false
  else
    Matrix.makeIdentityMatrix m.rows >>= fun idn =>
    m.opMul m.transposeOf >>= fun mt =>
    m.transposeOf.opMul m >>= fun tm =>
    m.opMul idn >>= fun mi =>
    .ok (Matrix.beq mt tm && Matrix.beq mi idn)

/-- Reference determinant following the specification text (§4.1): Laplace
expansion along the first row, the minor deleting row 0 and column `i`.
Used only to compare the source algorithm against the specified one. -/
def specDetAux : Nat → Matrix → ℚ
  | 0, _ => 0
  | fuel + 1, m =>
    if m.rows = 1 then m.get 0 0
    else if m.rows = 2 then
      m.get 0 0 * m.get 1 1 - m.get 0 1 * m.get 1 0
    else
      ((List.range m.cols).map fun i =>
        (if i % 2 = 0 then (1 : ℚ) else -1) *
          (m.get 0 i *
            specDetAux fuel
              ⟨m.rows - 1, m.cols - 1,
                (List.range (m.rows - 1)).map fun j =>
                  ((List.range m.cols).filter fun k => k != i).map fun k =>
                    m.get (j + 1) k⟩)).sum

/-- Reference determinant wrapper for the specification's algorithm. -/
def specDeterminant (m : Matrix) : ℚ := specDetAux m.rows m

/-- Reference cofactor entry following the specification text (§4.1):
`sign(i + j) * det(minor deleting row i and column j)`. -/
def specCofactorEntry (m : Matrix) (i j : Nat) : ℚ :=
  (if (i + j) % 2 = 0 then (1 : ℚ) else -1) *
    specDetAux (m.rows - 1)
      ⟨m.rows - 1, m.cols - 1,
        ((List.range m.rows).filter fun r => r != i).map fun r =>
          ((List.range m.cols).filter fun c => c != j).map fun c =>
            m.get r c⟩

/-- Shallow embedding of `matrix_lib::SparseMatrix<T>` at `T = ℚ`: the three
parallel coordinate sequences plus the logical dimensions. -/
structure SparseMatrix where
  rows : Nat
  cols : Nat
  rowsIndexes : List Nat
  colsIndexes : List Nat
  values : List ℚ
deriving DecidableEq

/-- `SparseMatrix(rows, cols)`: empty coordinate lists. -/
def SparseMatrix.init (rows cols : Nat) : SparseMatrix :=
  ⟨rows, cols, [], [], []⟩

/-- `addValue`: bounds check, then append the triple — except that zero
values are silently dropped. -/
def SparseMatrix.addValue (m : SparseMatrix) (row col : Nat) (v : ℚ) :
    Except MatErr SparseMatrix :=
  if row ≥ m.rows ∨ col ≥ m.cols then .error .outOfRange
  else if v ≠ 0 then
    .ok ⟨m.rows, m.cols, m.rowsIndexes ++ [row], m.colsIndexes ++ [col],
      m.values ++ [v]⟩
  else .ok m

/-- `operator*(scalar)`: copies the matrix, then multiplies every stored
value in place — no zero filtering. -/
def SparseMatrix.opMulScalar (m : SparseMatrix) (c : ℚ) : SparseMatrix :=
  ⟨m.rows, m.cols, m.rowsIndexes, m.colsIndexes, m.values.map (· * c)⟩

/-- `scaleSparseMatrix`: the same in-place multiplication of the stored
values. -/
def SparseMatrix.scaleSparseMatrix (m : SparseMatrix) (c : ℚ) : SparseMatrix :=
  ⟨m.rows, m.cols, m.rowsIndexes, m.colsIndexes, m.values.map (· * c)⟩

/-- The data-model invariant of §3: no stored entry has value zero. -/
def SparseMatrix.NoZeroStored (m : SparseMatrix) : Prop :=
  ∀ v ∈ m.values, v ≠ 0

instance (m : SparseMatrix) : Decidable m.NoZeroStored := by
  unfold SparseMatrix.NoZeroStored; infer_instance

/-- `operator==`: compares the dimensions and the three stored sequences
element-for-element, i.e. the representation, not the represented matrix. -/
def SparseMatrix.beq (a b : SparseMatrix) : Bool :=
  a.rows == b.rows && a.cols == b.cols && a.rowsIndexes == b.rowsIndexes &&
    a.colsIndexes == b.colsIndexes && a.values == b.values

/-- Linear scan of the coordinate triples, defaulting to zero. -/
def SparseMatrix.scan : List Nat → List Nat → List ℚ → Nat → Nat → ℚ
  | r :: rs, c :: cs, v :: vs, row, col =>
    if r == row && c == col then v else SparseMatrix.scan rs cs vs row col
  | _, _, _, _, _ => 0

/-- `getValue`: bounds check, then the linear scan over stored entries. -/
def SparseMatrix.getValue (m : SparseMatrix) (row col : Nat) :
    Except MatErr ℚ :=
  if row ≥ m.rows ∨ col ≥ m.cols then .error .outOfRange
  else .ok (SparseMatrix.scan m.rowsIndexes m.colsIndexes m.values row col)

/-- Shallow embedding of `matrix_lib::BlockMatrix` state: logical extent,
tile extent, and the grid of dense tiles. -/
structure BlockMatrix where
  rows : Nat
  cols : Nat
  blockRows : Nat
  blockCols : Nat
  data : List (List Matrix)

/-- `(rows_ + blockRows_ - 1) / blockRows_`: number of tile rows. -/
def BlockMatrix.numBlocksRow (b : BlockMatrix) : Nat :=
  (b.rows + b.blockRows - 1) / b.blockRows

/-- `(cols_ + blockCols_ - 1) / blockCols_`: number of tile columns. -/
def BlockMatrix.numBlocksCol (b : BlockMatrix) : Nat :=
  (b.cols + b.blockCols - 1) / b.blockCols

/-- `getBlock`: rejects indices at or past the grid extent — and also any
index below `MIN_COUNT_BLOCK = 2` — with `std::out_of_range`. -/
def BlockMatrix.getBlock (b : BlockMatrix) (blockRow blockCol : Nat) :
    Except MatErr Matrix :=
  if blockRow ≥ b.numBlocksRow ∨ blockCol ≥ b.numBlocksCol ∨
      blockRow < 2 ∨ blockCol < 2 then .error .outOfRange
  else .ok ((b.data.getD blockRow []).getD blockCol (Matrix.make 0 0))

/-- `operator()(blockRow, blockCol)`: delegates to `getBlock`. -/
def BlockMatrix.opIndex (b : BlockMatrix) (i j : Nat) : Except MatErr Matrix :=
  b.getBlock i j

/-! ## Concrete inputs drawn from the specification scenarios and the
repository's own test suite -/

/-- The 4×4 matrix of Scenario 5 (`determinant == -37` expected). -/
def M4 : Matrix := .ofRows [[3, 2, 1, 5], [1, 0, 2, 3], [4, 3, 2, 1], [0, 1, 0, 2]]

/-- The 2×2 matrix of Scenario 6 (`inverse == [[0.6,-0.7],[-0.2,0.4]]`
expected). -/
def A2 : Matrix := .ofRows [[4, 7], [2, 6]]

/-- The value the embedded `inverseMatrix` actually produces on `A2`. -/
def A2invCode : Matrix := .ofRows [[3/5, -3/5], [-1/5, 1/5]]

/-- The inverse of `A2` claimed by the specification. -/
def A2invSpec : Matrix := .ofRows [[3/5, -7/10], [-1/5, 2/5]]

/-- The 2×2 identity. -/
def I2 : Matrix := .ofRows [[1, 0], [0, 1]]

/-- A receiver distinct from `A2`, to probe `inverseMatrix(other)`. -/
def M12 : Matrix := .ofRows [[1, 2], [3, 4]]

/-- The 3×3 matrix of the repository's `CofactorMatrix` test. -/
def C3M : Matrix := .ofRows [[1, 2, 3], [0, 1, 4], [5, 6, 0]]

/-- A diagonal matrix with equal nonzero entries — normal in the
mathematical sense. -/
def diag2 : Matrix := .ofRows [[2, 0], [0, 2]]

/-- A non-square 2×3 matrix. -/
def m23 : Matrix := .ofRows [[1, 2, 3], [4, 5, 6]]

/-- A sparse matrix holding the single entry `(0, 0, 5)`. -/
def sEx : SparseMatrix := ⟨2, 2, [0], [0], [5]⟩

/-- Entries `(0,0,5)` then `(1,2,3)` inserted in that order. -/
def spA : SparseMatrix := ⟨3, 3, [0, 1], [0, 2], [5, 3]⟩

/-- The same entries inserted in the opposite order. -/
def spB : SparseMatrix := ⟨3, 3, [1, 0], [2, 0], [3, 5]⟩

/-- A block matrix with a 2×2 tile grid (4×4 logical, 2×2 tiles). -/
def bEx : BlockMatrix := ⟨4, 4, 2, 2,
  [[Matrix.make 2 2, Matrix.make 2 2], [Matrix.make 2 2, Matrix.make 2 2]]⟩

/-- A block matrix with a 3×3 tile grid (6×6 logical, 2×2 tiles). -/
def bEx3 : BlockMatrix := ⟨6, 6, 2, 2,
  [[Matrix.make 2 2, Matrix.make 2 2, Matrix.make 2 2],
   [Matrix.make 2 2, Matrix.make 2 2, Matrix.make 2 2],
   [Matrix.make 2 2, Matrix.make 2 2, Matrix.make 2 2]]⟩

/-! ## Proof-support definitions for the in-place transpose -/

/-- Row `a` of the transpose of `m` (its column `a`), at size `n`. -/
def tRow (m : Matrix) (n a : Nat) : List ℚ :=
  (List.range n).map fun b => m.get b a

/-- The outer-loop accumulator of the in-place transpose after `k` rows. -/
def tpData (m : Matrix) (n k : Nat) : List (List ℚ) :=
  ((List.range k).map (tRow m n)) ++ List.replicate (n - k) (List.replicate n 0)

/-- The inner-loop accumulator while filling row `i`, after `k` cells. -/
def midData (m : Matrix) (n i k : Nat) : List (List ℚ) :=
  ((List.range i).map (tRow m n)) ++
    ((((List.range k).map fun b => m.get b i) ++ List.replicate (n - k) 0) ::
      List.replicate (n - i - 1) (List.replicate n 0))

instance {ε α : Type} [DecidableEq ε] [DecidableEq α] :
    DecidableEq (Except ε α) := fun a b =>
  match a, b with
  | .error e, .error f =>
    if h : e = f then .isTrue (by rw [h])
    else .isFalse (by intro hc; injection hc; exact h (by assumption))
  | .ok x, .ok y =>
    if h : x = y then .isTrue (by rw [h])
    else .isFalse (by intro hc; injection hc; exact h (by assumption))
  | .error _, .ok _ => .isFalse (by intro hc; exact Except.noConfusion hc)
  | .ok _, .error _ => .isFalse (by intro hc; exact Except.noConfusion hc)

/-! ## Supporting lemmas -/

/-- Auxiliary: prefix-of-append `getD` at the junction point. -/
theorem getD_append_cons {α : Type} (l1 : List α) (a : α) (l2 : List α) (d : α)
    {i : Nat} (h : l1.length = i) : (l1 ++ a :: l2).getD i d = a := by
  subst h
  induction l1 with
  | nil => rfl
  | cons x xs ih => simpa using ih

/-- Auxiliary: `set` at the junction point of an append. -/
theorem set_append_cons {α : Type} (l1 : List α) (a b : α) (l2 : List α)
    {i : Nat} (h : l1.length = i) : (l1 ++ a :: l2).set i b = l1 ++ b :: l2 := by
  subst h
  induction l1 with
  | nil => rfl
  | cons x xs ih => simp [ih]

/-- Auxiliary: `getD` on a mapped range below the bound. -/
theorem getD_range_map {α : Type} (f : Nat → α) {n i : Nat} (h : i < n) (d : α) :
    ((List.range n).map f).getD i d = f i := by
  rw [List.getD_eq_getElem?_getD, List.getElem?_map, List.getElem?_range h]
  rfl

/-- Auxiliary: `Except.ok` on the left of a bind reduces. -/
theorem bind_ok_reduce {ε α β : Type} (x : α) (f : α → Except ε β) :
    (Except.ok x >>= f) = f x := rfl

/-- Auxiliary: success-transport for `foldlM` over `Except` under an
invariant on the accumulator. -/
theorem foldlM_ok_inv {α β ε : Type} (P : α → Prop) (l : List β)
    (f : α → β → Except ε α) (g : α → β → α)
    (h : ∀ a b, P a → b ∈ l → f a b = .ok (g a b) ∧ P (g a b)) :
    ∀ a, P a → l.foldlM f a = .ok (l.foldl g a) := by
  induction l with
  | nil => intro a _; rfl
  | cons x xs ih =>
    intro a ha
    obtain ⟨hfx, hPx⟩ := h a x ha (List.mem_cons_self x xs)
    rw [List.foldlM_cons, hfx]
    show xs.foldlM f (g a x) = .ok ((x :: xs).foldl g a)
    rw [List.foldl_cons]
    exact ih (fun a b hPa hb => h a b hPa (List.mem_cons_of_mem _ hb)) (g a x) hPx

theorem midData_zero (m : Matrix) {n i : Nat} (hi : i < n) :
    midData m n i 0 = tpData m n i := by
  unfold midData tpData
  have h1 : n - i = (n - i - 1) + 1 := by omega
  rw [h1, List.replicate_succ]
  rfl

theorem midData_last (m : Matrix) (n i : Nat) :
    midData m n i n = tpData m n (i + 1) := by
  unfold midData tpData
  rw [List.range_succ, List.map_append, Nat.sub_self, List.replicate_zero,
    List.append_nil, List.append_assoc]
  rfl

theorem rawGet_ok (m : Matrix) (hwf : m.Wf) {n k i : Nat}
    (hr : m.rows = n) (hc : m.cols = n) (hk : k < n) (hi : i < n) :
    m.rawGet k i = Except.ok (m.get k i) := by
  have hk' : k < m.data.length := by rw [hwf.1, hr]; exact hk
  have hrow : m.data[k].length = n := by
    rw [hwf.2 m.data[k] (List.getElem_mem hk'), hc]
  have hi' : i < m.data[k].length := by rw [hrow]; exact hi
  have h1 : m.data.get? k = some m.data[k] := by
    rw [List.get?_eq_getElem?, List.getElem?_eq_getElem hk']
  have h2 : m.data[k].get? i = some m.data[k][i] := by
    rw [List.get?_eq_getElem?, List.getElem?_eq_getElem hi']
  unfold Matrix.rawGet
  simp only [h1, h2]
  rw [Matrix.get, List.getD_eq_getElem m.data [] hk', List.getD_eq_getElem _ 0 hi']

theorem inner_step (m : Matrix) (hwf : m.Wf) {n : Nat}
    (hr : m.rows = n) (hc : m.cols = n) {i k : Nat} (hi : i < n) (hk : k < n) :
    (m.rawGet k i >>= fun v => Matrix.setChecked ⟨n, n, midData m n i k⟩ i k v)
      = Except.ok ⟨n, n, midData m n i (k + 1)⟩ := by
  rw [rawGet_ok m hwf hr hc hk hi]
  show Matrix.setChecked ⟨n, n, midData m n i k⟩ i k (m.get k i) = _
  unfold Matrix.setChecked
  rw [if_pos ⟨hi, hk⟩]
  have hpre : ((List.range i).map (tRow m n)).length = i := by simp
  have hlen : ((List.range k).map fun b => m.get b i).length = k := by simp
  have h1 : n - k = (n - (k + 1)) + 1 := by omega
  have hget : (midData m n i k).getD i [] =
      ((List.range k).map fun b => m.get b i) ++ List.replicate (n - k) 0 :=
    getD_append_cons _ _ _ _ hpre
  have hmid : (((List.range k).map fun b => m.get b i) ++
        List.replicate (n - k) 0).set k (m.get k i) =
      ((List.range (k + 1)).map fun b => m.get b i) ++
        List.replicate (n - (k + 1)) 0 := by
    rw [h1, List.replicate_succ, set_append_cons _ _ _ _ hlen,
      List.range_succ, List.map_append, List.append_assoc]
    rfl
  have hset : (midData m n i k).set i
        (((List.range (k + 1)).map fun b => m.get b i) ++
          List.replicate (n - (k + 1)) 0) = midData m n i (k + 1) :=
    set_append_cons _ _ _ _ hpre
  rw [hget, hmid, hset]

theorem inner_fold (m : Matrix) (hwf : m.Wf) {n : Nat}
    (hr : m.rows = n) (hc : m.cols = n) {i : Nat} (hi : i < n) :
    ∀ k, k ≤ n →
      (List.range k).foldlM
        (fun acc2 j => m.rawGet j i >>= fun v => acc2.setChecked i j v)
        (⟨n, n, tpData m n i⟩ : Matrix)
      = Except.ok ⟨n, n, midData m n i k⟩ := by
  intro k
  induction k with
  | zero =>
    intro _
    rw [midData_zero m hi]
    rfl
  | succ k ih =>
    intro hk1
    have hk : k < n := by omega
    rw [List.range_succ, List.foldlM_append, ih (by omega)]
    simp only [bind_ok_reduce, List.foldlM_cons, List.foldlM_nil, bind_pure]
    exact inner_step m hwf hr hc hi hk

theorem outer_fold (m : Matrix) (hwf : m.Wf) {n : Nat}
    (hr : m.rows = n) (hc : m.cols = n) :
    ∀ i, i ≤ n →
      (List.range i).foldlM
        (fun acc a =>
          (List.range n).foldlM
            (fun acc2 j => m.rawGet j a >>= fun v => acc2.setChecked a j v) acc)
        (⟨n, n, tpData m n 0⟩ : Matrix)
      = Except.ok ⟨n, n, tpData m n i⟩ := by
  intro i
  induction i with
  | zero => intro _; rfl
  | succ i ih =>
    intro hi1
    have hi : i < n := by omega
    rw [List.range_succ, List.foldlM_append, ih (by omega)]
    simp only [bind_ok_reduce, List.foldlM_cons, List.foldlM_nil, bind_pure]
    rw [inner_fold m hwf hr hc hi n le_rfl, midData_last]

theorem transposeInPlace_square (m : Matrix) (hwf : m.Wf)
    (hsq : m.rows = m.cols) :
    m.transposeMatrixInPlace = Except.ok m.transposeOf := by
  have hc : m.cols = m.rows := hsq.symm
  unfold Matrix.transposeMatrixInPlace
  rw [hc]
  have hinit : Matrix.make m.rows m.rows = ⟨m.rows, m.rows, tpData m m.rows 0⟩ := by
    unfold Matrix.make tpData
    simp
  rw [hinit, outer_fold m hwf rfl hc m.rows le_rfl]
  unfold Matrix.transposeOf tpData
  rw [hc]
  simp [tRow]

theorem wf_transposeOf (m : Matrix) : m.transposeOf.Wf := by
  constructor
  · simp [Matrix.transposeOf]
  · intro r hr
    simp only [Matrix.transposeOf, List.mem_map] at hr
    obtain ⟨a, _, rfl⟩ := hr
    simp [Matrix.transposeOf]

theorem get_transposeOf (m : Matrix) {i j : Nat} (hi : i < m.cols)
    (hj : j < m.rows) : m.transposeOf.get i j = m.get j i := by
  unfold Matrix.transposeOf Matrix.get
  simp only
  rw [getD_range_map _ hi, getD_range_map _ hj]

theorem canon_of_wf (m : Matrix) (hwf : m.Wf) :
    (⟨m.rows, m.cols,
      (List.range m.rows).map fun i => (List.range m.cols).map fun j =>
        m.get i j⟩ : Matrix) = m := by
  obtain ⟨hlen, hrows⟩ := hwf
  cases m with
  | mk r c d =>
    simp only at hlen hrows ⊢
    congr 1
    apply List.ext_getElem
    · simpa using hlen.symm
    · intro i h1 h2
      rw [List.getElem_map, List.getElem_range]
      apply List.ext_getElem
      · have := hrows d[i] (List.getElem_mem h2)
        simpa using this.symm
      · intro j hj1 hj2
        rw [List.getElem_map, List.getElem_range]
        show Matrix.get ⟨r, c, d⟩ i j = d[i][j]
        unfold Matrix.get
        simp only
        rw [List.getD_eq_getElem d [] h2, List.getD_eq_getElem _ 0 hj2]

theorem transposeOf_transposeOf (m : Matrix) (hwf : m.Wf) :
    m.transposeOf.transposeOf = m := by
  have hdata : (List.range m.rows).map
        (fun j => (List.range m.cols).map fun i => m.transposeOf.get i j) =
      (List.range m.rows).map
        (fun j => (List.range m.cols).map fun i => m.get j i) := by
    apply List.map_congr_left
    intro j hj
    apply List.map_congr_left
    intro i hi
    exact get_transposeOf m (List.mem_range.mp hi) (List.mem_range.mp hj)
  show (⟨m.rows, m.cols, (List.range m.rows).map fun j =>
      (List.range m.cols).map fun i => m.transposeOf.get i j⟩ : Matrix) = m
  rw [hdata]
  exact canon_of_wf m hwf


/-! ## Claims -/

/-- C1: the claim asserts `determinant()` performs the classic Laplace
expansion and yields `-37` on the Scenario-5 matrix.  The source's minor
loop assigns `data_[j][i]` instead of `data_[j][k]`, so every minor has
constant rows and every determinant of size ≥ 3 evaluates to 0; on the
Scenario-5 matrix the code returns 0 while the specified expansion (and the
repository's own test) gives -37. -/
theorem determinant_expansion_code_bug :
    Matrix.determinant M4 = Except.ok 0 ∧ specDeterminant M4 = -37 := by
  constructor
  · norm_num [Matrix.determinant, Matrix.detAux, M4, Matrix.ofRows, Matrix.get,
      List.range_succ]
  · norm_num [specDeterminant, specDetAux, M4, Matrix.ofRows, Matrix.get,
      List.range_succ]

/-- C2: the claim asserts `A * inverseMatrix(A) = I` and the Scenario-6
value.  Because `cofactorMatrix` always deletes row 0, the code's inverse of
`[[4,7],[2,6]]` is `[[0.6,-0.6],[-0.2,0.2]]`, not the claimed
`[[0.6,-0.7],[-0.2,0.4]]`, and the product with the original is
`[[1,-1],[0,0]]`, not the identity — contradicting the repository's own
`InverseMatrix` test. -/
theorem inverse_product_identity_code_bug :
    Matrix.inverseMatrix A2 = Except.ok A2invCode ∧
    Matrix.opMul A2 A2invCode = Except.ok (Matrix.ofRows [[1, -1], [0, 0]]) ∧
    Matrix.beq (Matrix.ofRows [[1, -1], [0, 0]]) I2 = false ∧
    Matrix.beq A2invCode A2invSpec = false := by
  refine ⟨?_, ?_, ?_, ?_⟩
  · norm_num [Matrix.inverseMatrix, Matrix.adjugateMatrix, Matrix.cofactorMatrix,
      Matrix.transposeOf, Matrix.opMulScalar, Matrix.detAux, A2, A2invCode,
      Matrix.ofRows, Matrix.get, List.range_succ, Except.instMonad, Except.bind]
  · norm_num [Matrix.opMul, A2, A2invCode, Matrix.ofRows, Matrix.get,
      List.range_succ]
  · norm_num [Matrix.beq, I2, Matrix.ofRows, Matrix.get, List.range_succ]
  · norm_num [Matrix.beq, A2invCode, A2invSpec, Matrix.ofRows, Matrix.get,
      List.range_succ]

/-- C3: the claim asserts entry `(i,j)` of `cofactorMatrix()` is
`sign(i+j) * det(minor deleting row i and column j)`.  The source always
deletes row 0 (`data_[m + 1][n]`), so e.g. on the repository's own
`CofactorMatrix` test input the code's entry `(1,0)` is `24` where the
claimed formula (and the test) give `18`. -/
theorem cofactor_minor_row_code_bug :
    Matrix.cofactorMatrix C3M =
      Except.ok (Matrix.ofRows [[-24, 20, -5], [24, -20, 5], [-24, 20, -5]]) ∧
    specCofactorEntry C3M 1 0 = 18 := by
  constructor
  · norm_num [Matrix.cofactorMatrix, Matrix.detAux, C3M, Matrix.ofRows,
      Matrix.get, List.range_succ]
  · norm_num [specCofactorEntry, specDetAux, C3M, Matrix.ofRows, Matrix.get,
      List.range_succ]

/-- C4: the claim asserts `M.inverseMatrix(A)` returns the inverse of `A`
independently of `M`.  The source scales `this->adjugateMatrix()` — the
receiver's adjugate — by `1 / other.determinant()`, so the result depends on
the receiver and `A × result` is not the identity. -/
theorem inverse_other_operand_code_bug :
    Matrix.inverseMatrixOther M12 A2 =
      Except.ok (Matrix.ofRows [[2/5, -2/5], [-3/10, 3/10]]) ∧
    Matrix.inverseMatrixOther A2 A2 = Except.ok A2invCode ∧
    Matrix.beq (Matrix.ofRows [[2/5, -2/5], [-3/10, 3/10]]) A2invCode = false ∧
    Matrix.opMul A2 (Matrix.ofRows [[2/5, -2/5], [-3/10, 3/10]]) =
      Except.ok (Matrix.ofRows [[-1/2, 1/2], [-1, 1]]) ∧
    Matrix.beq (Matrix.ofRows [[-1/2, 1/2], [-1, 1]]) I2 = false := by
  refine ⟨?_, ?_, ?_, ?_, ?_⟩
  · norm_num [Matrix.inverseMatrixOther, Matrix.adjugateMatrix,
      Matrix.cofactorMatrix, Matrix.transposeOf, Matrix.opMulScalar,
      Matrix.detAux, A2, M12, Matrix.ofRows, Matrix.get, List.range_succ,
      Except.instMonad, Except.bind]
  · norm_num [Matrix.inverseMatrixOther, Matrix.adjugateMatrix,
      Matrix.cofactorMatrix, Matrix.transposeOf, Matrix.opMulScalar,
      Matrix.detAux, A2, A2invCode, Matrix.ofRows, Matrix.get, List.range_succ,
      Except.instMonad, Except.bind]
  · norm_num [Matrix.beq, A2invCode, Matrix.ofRows, Matrix.get, List.range_succ]
  · norm_num [Matrix.opMul, A2, Matrix.ofRows, Matrix.get, List.range_succ]
  · norm_num [Matrix.beq, I2, Matrix.ofRows, Matrix.get, List.range_succ]

/-- C5: the claim asserts `isNormalMatrix()` is equivalent to
`M×Mᵗ == Mᵗ×M`, the extra identity conjunct being redundant.  The source's
extra conjunct is `M × I == I`, i.e. it demands `M` itself be the identity;
`diag(2,2)` commutes with its transpose yet is reported not normal,
contradicting the function's own documentation of normality. -/
theorem isNormal_identity_check_code_bug :
    Matrix.isNormalMatrix diag2 = Except.ok false ∧
    Matrix.opMul diag2 diag2.transposeOf = Matrix.opMul diag2.transposeOf diag2 := by
  constructor
  · norm_num [Matrix.isNormalMatrix, Matrix.makeIdentityMatrix, Matrix.opMul,
      Matrix.transposeOf, Matrix.beq, diag2, Matrix.ofRows, Matrix.get,
      List.range_succ, Except.instMonad, Except.bind]
  · norm_num [Matrix.opMul, Matrix.transposeOf, diag2, Matrix.ofRows,
      Matrix.get, List.range_succ]

/-- C6 counterexample: scalar multiplication by 0 of a sparse matrix with a
stored entry leaves a stored entry whose value is 0, so not every public
operation preserves the no-zero-stored invariant. -/
theorem sparse_scalar_zero_stores_zero_cex :
    SparseMatrix.addValue (SparseMatrix.init 2 2) 0 0 5 = Except.ok sEx ∧
    (SparseMatrix.opMulScalar sEx 0).values = [0] ∧
    ¬ SparseMatrix.NoZeroStored (SparseMatrix.opMulScalar sEx 0) := by
  have h2 : (SparseMatrix.opMulScalar sEx 0).values = [0] := by
    norm_num [SparseMatrix.opMulScalar, sEx]
  refine ⟨?_, h2, ?_⟩
  · norm_num [SparseMatrix.addValue, SparseMatrix.init, sEx]
  · intro h
    exact h 0 (by rw [h2]; exact List.mem_singleton_self 0) rfl

/-- C6 (amended): `addValue` silently drops zero insertions and hence
preserves the no-zero-stored invariant, and scalar multiplication preserves
it for every nonzero scalar; but multiplying by the scalar 0 (via
`operator*` or `scaleSparseMatrix`) stores zero-valued entries whenever any
entry is stored, so the invariant is not preserved by every public
operation. -/
theorem sparse_no_zero_invariant_amended :
    (∀ (m : SparseMatrix) (r c : Nat) (v : ℚ) (m' : SparseMatrix),
        m.NoZeroStored → m.addValue r c v = Except.ok m' → m'.NoZeroStored) ∧
    (∀ (m : SparseMatrix) (c : ℚ), c ≠ 0 → m.NoZeroStored →
        (m.opMulScalar c).NoZeroStored) ∧
    (∀ (m : SparseMatrix) (c : ℚ), c ≠ 0 → m.NoZeroStored →
        (m.scaleSparseMatrix c).NoZeroStored) ∧
    (∀ m : SparseMatrix, m.values ≠ [] →
        ¬ (m.opMulScalar 0).NoZeroStored) := by
  refine ⟨?_, ?_, ?_, ?_⟩
  · intro m r c v m' hnz hok
    unfold SparseMatrix.addValue at hok
    split at hok
    · exact Except.noConfusion hok
    · split at hok
      · simp only [Except.ok.injEq] at hok
        subst hok
        intro x hx
        rcases List.mem_append.mp hx with hx | hx
        · exact hnz x hx
        · simp only [List.mem_singleton] at hx
          subst hx
          assumption
      · simp only [Except.ok.injEq] at hok
        subst hok
        exact hnz
  · intro m c hc hnz x hx
    simp only [SparseMatrix.opMulScalar, List.mem_map] at hx
    obtain ⟨a, ha, rfl⟩ := hx
    exact mul_ne_zero (hnz a ha) hc
  · intro m c hc hnz x hx
    simp only [SparseMatrix.scaleSparseMatrix, List.mem_map] at hx
    obtain ⟨a, ha, rfl⟩ := hx
    exact mul_ne_zero (hnz a ha) hc
  · intro m hne h
    match hv : m.values with
    | [] => exact hne hv
    | a :: t =>
      refine h 0 ?_ rfl
      simp only [SparseMatrix.opMulScalar, List.mem_map, hv]
      exact ⟨a, List.mem_cons_self a t, mul_zero a⟩

/-- C6 witness: the amended theorem applied at a concrete sparse matrix and
the concrete scalars 2 and 0. -/
theorem sparse_no_zero_invariant_amended_witness :
    (SparseMatrix.opMulScalar sEx 2).NoZeroStored ∧
    ¬ (SparseMatrix.opMulScalar sEx 0).NoZeroStored :=
  ⟨sparse_no_zero_invariant_amended.2.1 sEx 2 (by decide) (by decide),
   sparse_no_zero_invariant_amended.2.2.2 sEx (by decide)⟩

/-- C7: adding dense matrices whose row or column counts differ yields the
dimension-mismatch error, and inverting a square matrix whose computed
determinant is zero yields the singular-matrix error.  Both operations are
pure in the embedding — they allocate a fresh result and never write to an
operand — matching the source's throw-before-mutation behavior. -/
theorem add_mismatch_inverse_singular :
    (∀ a b : Matrix, a.rows ≠ b.rows ∨ a.cols ≠ b.cols →
        Matrix.opAdd a b = Except.error MatErr.dimMismatch) ∧
    (∀ m : Matrix, m.rows = m.cols → Matrix.detAux m.rows m = 0 →
        Matrix.inverseMatrix m = Except.error MatErr.singular) := by
  constructor
  · intro a b h
    unfold Matrix.opAdd
    rw [if_pos h]
  · intro m hsq hdet
    unfold Matrix.inverseMatrix
    rw [if_neg (by simp [hsq]), if_pos hdet]

/-- C7 witness: the 2×2 + 3×3 mismatch of Scenario 7, and the singular zero
2×2 matrix. -/
theorem add_mismatch_inverse_singular_witness :
    Matrix.opAdd (Matrix.make 2 2) (Matrix.make 3 3) =
      Except.error MatErr.dimMismatch ∧
    Matrix.inverseMatrix (Matrix.make 2 2) = Except.error MatErr.singular :=
  ⟨add_mismatch_inverse_singular.1 (Matrix.make 2 2) (Matrix.make 3 3)
      (by decide),
   add_mismatch_inverse_singular.2 (Matrix.make 2 2) (by decide)
      (by norm_num [Matrix.detAux, Matrix.make, Matrix.get, List.replicate])⟩

/-- C8 counterexample: the in-place `transposeMatrix()` on the non-square
2×3 matrix `[[1,2,3],[4,5,6]]` runs `result(i,j) = data_[j][i]` with `i`
ranging over the 2 rows and `j` over the 3 columns while `result` is 3×2, so
it reads `data_[2]` out of bounds (undefined behavior) and never produces
the transpose — the in-place round trip fails for non-square matrices. -/
theorem transpose_inplace_nonsquare_cex :
    Matrix.transposeMatrixInPlace m23 = Except.error MatErr.ubRead ∧
    Matrix.transposeMatrixInPlace m23 ≠ Except.ok m23.transposeOf := by
  have h1 : Matrix.transposeMatrixInPlace m23 = Except.error MatErr.ubRead := by
    norm_num [Matrix.transposeMatrixInPlace, Matrix.make, Matrix.rawGet,
      Matrix.setChecked, m23, Matrix.ofRows, Matrix.get, List.range_succ,
      List.foldlM, Except.instMonad, Except.bind, List.replicate]
  exact ⟨h1, by rw [h1]; exact fun h => Except.noConfusion h⟩

/-- C8 (amended): for every well-formed square matrix, the in-place
`transposeMatrix()` succeeds and replaces self with the transpose, and doing
it twice restores the original; the pure overload `transposeMatrix(other)`
returns the transpose of the receiver (ignoring its argument) without
mutating anything, and applying it twice restores any well-formed matrix of
any shape.  On non-square matrices the in-place form fails with an
out-of-bounds access instead of transposing (see the counterexample). -/
theorem transpose_roundtrip_amended :
    (∀ m : Matrix, m.Wf → m.rows = m.cols →
        Matrix.transposeMatrixInPlace m = Except.ok m.transposeOf) ∧
    (∀ m : Matrix, m.Wf → m.rows = m.cols →
        (Matrix.transposeMatrixInPlace m).bind Matrix.transposeMatrixInPlace =
          Except.ok m) ∧
    (∀ m other : Matrix, Matrix.transposeMatrixPure m other = m.transposeOf) ∧
    (∀ m o o2 : Matrix, m.Wf →
        Matrix.transposeMatrixPure (Matrix.transposeMatrixPure m o) o2 = m) := by
  refine ⟨transposeInPlace_square, ?_, fun m other => rfl, ?_⟩
  · intro m hwf hsq
    rw [transposeInPlace_square m hwf hsq]
    show Matrix.transposeMatrixInPlace m.transposeOf = Except.ok m
    rw [transposeInPlace_square m.transposeOf (wf_transposeOf m)
      (by show m.cols = m.rows; exact hsq.symm)]
    rw [transposeOf_transposeOf m hwf]
  · intro m o o2 hwf
    show m.transposeOf.transposeOf = m
    exact transposeOf_transposeOf m hwf

/-- C8 witness: the amended round-trip facts at the concrete square matrix
`[[1,2],[3,4]]` and the concrete 2×3 matrix `m23`. -/
theorem transpose_roundtrip_amended_witness :
    Matrix.transposeMatrixInPlace (Matrix.ofRows [[1, 2], [3, 4]]) =
      Except.ok (Matrix.ofRows [[1, 2], [3, 4]]).transposeOf ∧
    (Matrix.transposeMatrixInPlace (Matrix.ofRows [[1, 2], [3, 4]])).bind
        Matrix.transposeMatrixInPlace =
      Except.ok (Matrix.ofRows [[1, 2], [3, 4]]) ∧
    Matrix.transposeMatrixPure (Matrix.transposeMatrixPure m23 m23) m23 = m23 :=
  ⟨transpose_roundtrip_amended.1 _ (by decide) rfl,
   transpose_roundtrip_amended.2.1 _ (by decide) rfl,
   transpose_roundtrip_amended.2.2.2 m23 m23 m23 (by decide)⟩

/-- C9: `getBlock` (and `operator()`, which delegates to it) rejects every
block index below `MIN_COUNT_BLOCK = 2` with the out-of-range error, and
since a valid index must also be below the grid extent, no tile of a block
matrix whose grid is 2×2 or smaller can ever be retrieved. -/
theorem getBlock_rejects_small_indices :
    (∀ (b : BlockMatrix) (i j : Nat), i < 2 ∨ j < 2 →
        b.getBlock i j = Except.error MatErr.outOfRange) ∧
    (∀ (b : BlockMatrix) (i j : Nat), b.opIndex i j = b.getBlock i j) ∧
    (∀ (b : BlockMatrix) (i j : Nat), b.numBlocksRow ≤ 2 → b.numBlocksCol ≤ 2 →
        b.getBlock i j = Except.error MatErr.outOfRange) := by
  refine ⟨?_, fun b i j => rfl, ?_⟩
  · intro b i j h
    unfold BlockMatrix.getBlock
    rw [if_pos (by tauto)]
  · intro b i j hr hc
    unfold BlockMatrix.getBlock
    by_cases hi : i < 2
    · rw [if_pos (by tauto)]
    · rw [if_pos (Or.inl (by omega))]

/-- C9 witness: on a 2×2 tile grid every index fails, and on a 3×3 grid the
indices 0 and 1 still fail. -/
theorem getBlock_rejects_small_indices_witness :
    bEx.getBlock 0 0 = Except.error MatErr.outOfRange ∧
    bEx.getBlock 1 1 = Except.error MatErr.outOfRange ∧
    bEx3.getBlock 1 2 = Except.error MatErr.outOfRange ∧
    bEx.getBlock 5 5 = Except.error MatErr.outOfRange :=
  ⟨getBlock_rejects_small_indices.1 bEx 0 0 (by decide),
   getBlock_rejects_small_indices.1 bEx 1 1 (by decide),
   getBlock_rejects_small_indices.1 bEx3 1 2 (by decide),
   getBlock_rejects_small_indices.2.2 bEx 5 5 (by decide) (by decide)⟩

/-- C10: sparse `operator==` holds exactly when the dimensions and the three
stored sequences coincide element-for-element; consequently the same entries
inserted through `addValue` in two different orders produce matrices that
represent the same function (identical `getValue` everywhere) yet compare
unequal. -/
theorem sparse_eq_compares_representation :
    (∀ a b : SparseMatrix, SparseMatrix.beq a b = true ↔
        (a.rows = b.rows ∧ a.cols = b.cols ∧ a.rowsIndexes = b.rowsIndexes ∧
         a.colsIndexes = b.colsIndexes ∧ a.values = b.values)) ∧
    ((SparseMatrix.init 3 3).addValue 0 0 5 >>= fun s =>
        s.addValue 1 2 3) = Except.ok spA ∧
    ((SparseMatrix.init 3 3).addValue 1 2 3 >>= fun s =>
        s.addValue 0 0 5) = Except.ok spB ∧
    SparseMatrix.beq spA spB = false ∧
    (∀ i < 3, ∀ j < 3, spA.getValue i j = spB.getValue i j) := by
  refine ⟨?_, rfl, rfl, rfl, by decide⟩
  intro a b
  simp [SparseMatrix.beq, and_assoc]

/-- C10 witness: the characterization applied at the two concrete insertion
orders, and their `getValue` agreement at a concrete coordinate. -/
theorem sparse_eq_compares_representation_witness :
    (SparseMatrix.beq spA spB = true ↔
      (spA.rows = spB.rows ∧ spA.cols = spB.cols ∧
       spA.rowsIndexes = spB.rowsIndexes ∧ spA.colsIndexes = spB.colsIndexes ∧
       spA.values = spB.values)) ∧
    spA.getValue 1 1 = spB.getValue 1 1 :=
  ⟨sparse_eq_compares_representation.1 spA spB,
   sparse_eq_compares_representation.2.2.2.2 1 (by decide) 1 (by decide)⟩

end MatrixLib
